import Mathlib

/-!
Verification of the subagent-chronicle diary scripts.

This file gives a shallow embedding, in Lean, of the text-processing core of
the repository (scripts/save.py and scripts/collect.py, whose functions are
duplicated in scripts/generate.py) and proves properties about it.

Strings are modelled by Lean `String` (a list of unicode code points, matching
Python 3 `str`); Python `len`, slicing and `sum` count code points, as do
`String.length` and our list-based helpers.  File contents are modelled as
`Option String` (`none` = the file does not exist).  The source files on disk
are stored with a reversible mac-roman/cp1252 transport garbling of their
non-ASCII characters; the embedding uses the decoded characters (em dash and
emoji), which is what the claims and the documentation quote.
-/

/-! ## Basic string helpers (list-of-characters level) -/

/-- Boolean prefix test on character lists. -/
def listIsPrefix : List Char → List Char → Bool
  | [], _ => true
  | _ :: _, [] => false
  | a :: as, b :: bs => a == b && listIsPrefix as bs

/-- Number of positions of `l` at which `pat` occurs (starts) as a substring.
For nonempty `pat`, `countPrefAux pat l ≠ 0` is exactly Python `pat in l`. -/
def countPrefAux (pat : List Char) : List Char → Nat
  | [] => 0
  | c :: rest => (if listIsPrefix pat (c :: rest) then 1 else 0) + countPrefAux pat rest

/-- The suffix of `l` following the first occurrence of `pat`, if any.
Models where a `re.search` for a literal pattern leaves off. -/
def suffixAfterFirst (pat : List Char) : List Char → Option (List Char)
  | [] => if listIsPrefix pat [] then some [] else none
  | c :: rest =>
    if listIsPrefix pat (c :: rest) then some ((c :: rest).drop pat.length)
    else suffixAfterFirst pat rest

/-- Python substring containment `pat in s`. -/
def strContains (s pat : String) : Bool :=
  countPrefAux pat.data s.data != 0

/-- Python `s.startswith(pre)`. -/
def strStartsWith (s pre : String) : Bool :=
  listIsPrefix pre.data s.data

/-- Python slicing `s[:n]` (by code points). -/
def strTake (s : String) (n : Nat) : String :=
  String.mk (s.data.take n)

/-- Python `s.strip()`: remove leading and trailing whitespace. -/
def trimStr (s : String) : String :=
  String.mk (((s.data.dropWhile Char.isWhitespace).reverse.dropWhile Char.isWhitespace).reverse)

/-- Split a character list at every newline, like Python `s.split('\n')`. -/
def splitLinesAux : List Char → List (List Char)
  | [] => [[]]
  | c :: rest =>
    let ls := splitLinesAux rest
    if c = '\n' then [] :: ls
    else
      match ls with
      | [] => [[c]]
      | h :: t => (c :: h) :: t

/-- The lines of a document, like Python `s.split('\n')`. -/
def linesOf (s : String) : List String :=
  (splitLinesAux s.data).map String.mk

/-- Python `sep.join(parts)`. -/
def strJoin (sep : String) : List String → String
  | [] => ""
  | x :: xs => xs.foldl (fun acc y => acc ++ sep ++ y) x

/-- Python `sum(len(p) for p in parts)`. -/
def sumLen : List String → Nat
  | [] => 0
  | s :: rest => s.length + sumLen rest

/-! ## Section extraction (scripts/save.py, duplicated in scripts/generate.py)

`extract_summary` / the four knowledge-category extractions all use a regex of
the shape `HEADING\n(.+?)(?=\n##|\Z)` with `re.DOTALL`: find the first
occurrence of the literal heading line, then lazily take at least one
character up to (not including) the next `\n##` or the end of the string.
`extract_title` uses `^# \d{4}-\d{2}-\d{2} — (.+)$` with `re.MULTILINE`.
-/

/-- Length taken by the lazy `(.+?)` after its mandatory first character:
advance until the rest of the input starts with `\n##` or is exhausted. -/
def stopLenAux : List Char → Nat
  | [] => 0
  | c :: r => if listIsPrefix ['\n', '#', '#'] (c :: r) then 0 else 1 + stopLenAux r

/-- The text matched by the lazy group `(.+?)(?=\n##|\Z)` (with `re.DOTALL`):
at least one character, then the shortest extension whose remainder starts
with `\n##` or is empty.  Only called on nonempty input. -/
def lazyUpto : List Char → List Char
  | [] => []
  | c :: rest => c :: rest.take (stopLenAux rest)

/-- Body of the section introduced by the literal `heading` (which includes
its trailing newline), stripped, or `none` when the regex does not match.
Embeds `re.search(heading + r'(.+?)(?=\n##|\Z)', s, re.DOTALL)` followed by
`.group(1).strip()`. -/
def sectionBody (heading s : String) : Option String :=
  match suffixAfterFirst heading.data s.data with
  | none => none
  | some [] => none
  | some t => some (trimStr (String.mk (lazyUpto t)))

/-- Match of one line against `^# \d{4}-\d{2}-\d{2} — (.+)$`; on success the
result is `group(1).strip()`.  Digits are taken to be ASCII digits. -/
def titleLineMatch (line : String) : Option String :=
  match line.data with
  | '#' :: ' ' :: y1 :: y2 :: y3 :: y4 :: '-' :: m1 :: m2 :: '-' :: d1 :: d2 :: ' ' :: '—' :: ' ' :: rest =>
    if (y1.isDigit && y2.isDigit && y3.isDigit && y4.isDigit
        && m1.isDigit && m2.isDigit && d1.isDigit && d2.isDigit) && rest ≠ [] then
      some (trimStr (String.mk rest))
    else none
  | _ => none

/-- `extract_title` (scripts/save.py line 83, scripts/generate.py line 298):
`re.search` with `re.MULTILINE` returns the group of the first line matching
the date-dash-title shape, else `None`. -/
def extract_title (entry_content : String) : Option String :=
  (linesOf entry_content).findSome? titleLineMatch

/-- One step of the `extract_summary` fallback window: the first of (at most)
`n` lines that is nonblank after stripping and does not start with `#`,
stripped. -/
def scanWindow : Nat → List String → Option String
  | 0, _ => none
  | _ + 1, [] => none
  | n + 1, l :: r =>
    if trimStr l != "" && !(strStartsWith l "#") then some (trimStr l)
    else scanWindow n r

/-- The `extract_summary` fallback: for each line starting with `"# "` that is
not the last line, look for a usable paragraph line among the following four
lines; the first hit wins. -/
def fallbackScan : List String → Option String
  | [] => none
  | l :: rest =>
    if strStartsWith l "# " && !rest.isEmpty then
      match scanWindow 4 rest with
      | some v => some v
      | none => fallbackScan rest
    else fallbackScan rest

/-- `extract_summary` (scripts/save.py line 66): the `## Summary` section body
if the regex matches, else the first paragraph line within four lines of a
`"# "` heading, else the fixed placeholder. -/
def extract_summary (entry_content : String) : String :=
  match sectionBody "## Summary\n" entry_content with
  | some body => body
  | none =>
    match fallbackScan (linesOf entry_content) with
    | some v => v
    | none => "Diary entry generated."

/-! ## Configuration (config.json fragment used by the merge engine)

Python reads `config.get("memory_integration", {})` and then `.get(key,
default)` on the inner mapping; absent keys are modelled with `Option` and
the same defaults are applied with `Option.getD`.
-/

/-- The `memory_integration` mapping of config.json. -/
structure MemoryIntegration where
  enabled : Option Bool
  append_to_daily : Option Bool
  format : Option String

/-- The configuration mapping (the fields the merge engine reads). -/
structure Config where
  diary_path : Option String
  memory_integration : Option MemoryIntegration

/-- `config.get("memory_integration", {})`. -/
def miOf (config : Config) : MemoryIntegration :=
  config.memory_integration.getD ⟨none, none, none⟩

def DEFAULT_DIARY_PATH : String := "memory/diary/"

/-! ## Daily-memory chronicle append (scripts/save.py line 161)

The state acted on is the single file `memory/{date_str}.md`, modelled as
`Option String`.  The function returns the written flag together with the new
file state.
-/

def CHRONICLE_HEADING : String := "## 📜 Daily Chronicle"

/-- The part of the chronicle block following `"\n\n## 📜 Daily Chronicle\n"`,
per the three format branches of `append_to_daily_memory`. -/
def chronicleTail (entry_content date_str : String) (config : Config) : String :=
  let format_type := (miOf config).format.getD "summary"
  let diary_path := config.diary_path.getD DEFAULT_DIARY_PATH
  if format_type = "link" then
    "[View diary entry](" ++ diary_path ++ date_str ++ ".md)\n"
  else if format_type = "full" then
    entry_content ++ "\n"
  else
    let summary := extract_summary entry_content
    let title := extract_title entry_content
    let title_line := match title with
      | some t => "**" ++ t ++ "**\n\n"
      | none => ""
    title_line ++ summary ++ "\n"

/-- The `content` string built by `append_to_daily_memory` (all three formats
start with the same f-string prefix `"\n\n## 📜 Daily Chronicle\n"`). -/
def chronicleContent (entry_content date_str : String) (config : Config) : String :=
  "\n\n" ++ CHRONICLE_HEADING ++ "\n" ++ chronicleTail entry_content date_str config

/-- `append_to_daily_memory(entry_content, date_str, config, workspace)`
(scripts/save.py line 161; scripts/generate.py line 324 is the same logic).
`daily_file` is the current content of `memory/{date_str}.md`. -/
def append_to_daily_memory (entry_content date_str : String) (config : Config)
    (daily_file : Option String) : Bool × Option String :=
  let mi := miOf config
  if mi.enabled.getD false = false then (false, daily_file)
  else if mi.append_to_daily.getD false = false then (false, daily_file)
  else
    let content := chronicleContent entry_content date_str config
    match daily_file with
    | some existing_content =>
      if strContains existing_content CHRONICLE_HEADING then (false, some existing_content)
      else (true, some (existing_content ++ content))
    | none =>
      (true, some ("# " ++ date_str ++ "\n\n*Daily memory log*\n" ++ content))

/-! ## Knowledge-file append (scripts/save.py line 101)

`update_persistent_files` extracts four sections and appends each, when
non-trivial, to its own file under the diary directory.  The state is the
four files `quotes.md`, `curiosity.md`, `decisions.md`, `relationship.md`.
-/

/-- The four files mutated by `update_persistent_files`. -/
structure KnowledgeFiles where
  quotes : Option String
  curiosity : Option String
  decisions : Option String
  relationship : Option String

/-- An apostrophe character, for the curiosity heading literal. -/
def apos : String := String.mk [Char.ofNat 39]

/-- The knowledge categories handled by `update_persistent_files`. -/
inductive KCat
  | quotes
  | curiosity
  | decisions
  | relationship
deriving DecidableEq

/-- The literal section heading (with trailing newline) searched for in the
entry, per category. -/
def catHeading : KCat → String
  | .quotes => "## Quote of the Day 💬\n"
  | .curiosity => "## Things I" ++ apos ++ "m Curious About 🔮\n"
  | .decisions => "## Key Decisions Made 🏛️\n"
  | .relationship => "## Relationship Notes 🤝\n"

/-- The fixed preamble written when the category file does not yet exist. -/
def catPreamble : KCat → String
  | .quotes => "# Quote Hall of Fame 💬\n\nMemorable quotes from my human.\n\n---\n\n"
  | .curiosity => "# Curiosity Backlog 🔮\n\nThings I want to explore.\n\n---\n\n## Active\n\n"
  | .decisions => "# Decision Archaeology 🏛️\n\nJudgment calls worth remembering.\n\n---\n\n"
  | .relationship => "# Relationship Evolution 🤝\n\nHow my dynamic with my human evolves.\n\n---\n\n"

/-- The label used in the `updates` result list, per category. -/
def catUpdateMsg : KCat → String
  | .quotes => "Quote → quotes.md"
  | .curiosity => "Curiosity → curiosity.md"
  | .decisions => "Decision → decisions.md"
  | .relationship => "Relationship → relationship.md"

/-- The per-category block of `update_persistent_files`: extract the section;
if the stripped body is truthy and longer than 10 characters, create the file
with its preamble when absent and append the dated subsection. -/
def knowledgeStep (cat : KCat) (entry_content date_str : String)
    (file : Option String) : Option String × List String :=
  match sectionBody (catHeading cat) entry_content with
  | some body =>
    if body != "" && body.length > 10 then
      let base := file.getD (catPreamble cat)
      (some (base ++ ("\n### " ++ date_str ++ "\n" ++ body ++ "\n")), [catUpdateMsg cat])
    else (file, [])
  | none => (file, [])

/-- Read the file of a category out of the state. -/
def catFile : KCat → KnowledgeFiles → Option String
  | .quotes, fs => fs.quotes
  | .curiosity, fs => fs.curiosity
  | .decisions, fs => fs.decisions
  | .relationship, fs => fs.relationship

/-- `update_persistent_files(entry_content, date_str, diary_dir)`
(scripts/save.py line 101): the four category blocks run in order, each on
its own file; the returned list collects the update messages. -/
def update_persistent_files (entry_content date_str : String)
    (fs : KnowledgeFiles) : KnowledgeFiles × List String :=
  let q := knowledgeStep .quotes entry_content date_str fs.quotes
  let c := knowledgeStep .curiosity entry_content date_str fs.curiosity
  let d := knowledgeStep .decisions entry_content date_str fs.decisions
  let r := knowledgeStep .relationship entry_content date_str fs.relationship
  (⟨q.1, c.1, d.1, r.1⟩, q.2 ++ c.2 ++ d.2 ++ r.2)

/-! ## Record parser (scripts/collect.py line 72, `parse_jsonl_session`)

One line of the JSONL transcript is modelled after parsing: the code inspects
`entry.get("type")` and, for messages, `msg.get("role", "")`,
`msg.get("content", "")` (a string or a list of typed items) and the presence
of `"tool_calls"`.  A line that is blank after stripping is `blank` (the
`continue` before `json.loads`); a line raising `json.JSONDecodeError` is
`malformed` (the `except` branch); both skip the budget check.  For
`tool_result` the record carries the already-coerced text
(`result.get("text", "")` for a dict, `str(result)` otherwise); for
`tool_error` it carries `entry.get("error", "")`.
-/

/-- An element of a list-valued message `content`: a dict with
`type == "text"` carrying its `text` (default `""`), or anything else. -/
inductive ContentItem
  | text (s : String)
  | other
deriving DecidableEq

/-- `msg.get("content", "")`: a string, a list of items, or another shape. -/
inductive MsgContent
  | str (s : String)
  | items (l : List ContentItem)
  | other
deriving DecidableEq

/-- One entry of `msg["tool_calls"]`: `tc.get("function", {})` with its
`name` (default `"unknown"`) and `arguments` (default `""`). -/
structure ToolCall where
  name : Option String
  arguments : Option String
deriving DecidableEq

/-- A `message` entry: `role` and `content` with their `.get` defaults
applied, and `tool_calls` if the key is present. -/
structure Msg where
  role : String
  content : MsgContent
  tool_calls : Option (List ToolCall)
deriving DecidableEq

/-- One transcript line as seen by the parser loop. -/
inductive Record
  | message (m : Msg)
  | tool_result (text : String)
  | tool_error (error : String)
  | otherType
  | blank
  | malformed
deriving DecidableEq

def GREETING_MARKER : String := "A new session was started"

def TRUNCATION_MARKER : String := "\n[... truncated for context ...]"

/-- The lines appended to `content_parts` for one successfully parsed entry
(in source order). -/
def emit : Record → List String
  | .message m =>
    if m.role = "user" then
      match m.content with
      | .items l =>
        l.filterMap fun it =>
          match it with
          | .text t => if strStartsWith t GREETING_MARKER then none else some ("User: " ++ t)
          | .other => none
      | .str c => if strStartsWith c GREETING_MARKER then [] else ["User: " ++ c]
      | .other => []
    else if m.role = "assistant" then
      (match m.content with
       | .items l =>
         l.filterMap fun it =>
           match it with
           | .text t => some ("Assistant: " ++ t)
           | .other => none
       | .str c => ["Assistant: " ++ c]
       | .other => []) ++
      (match m.tool_calls with
       | some tcs => tcs.map fun tc =>
           "[Tool: " ++ tc.name.getD "unknown" ++ "] " ++ tc.arguments.getD ""
       | none => [])
    else []
  | .tool_result text => if text ≠ "" then ["[Tool Result]: " ++ strTake text 500] else []
  | .tool_error error => if error ≠ "" then ["[Tool Error]: " ++ error] else []
  | .otherType => []
  | .blank => []
  | .malformed => []

/-- Lines that `continue` before reaching the budget check. -/
def skipsParse : Record → Bool
  | .blank => true
  | .malformed => true
  | _ => false

/-- The concatenated emissions of a record sequence. -/
def emitAll : List Record → List String
  | [] => []
  | r :: rs => emit r ++ emitAll rs

/-- The per-line loop of `parse_jsonl_session`: append the entry's lines,
then, for parsed lines only, re-total the emitted characters and stop with a
single truncation marker once the budget is exceeded. -/
def parseLoop (max_chars : Nat) : List Record → List String → List String
  | [], parts => parts
  | r :: rest, parts =>
    if skipsParse r then parseLoop max_chars rest parts
    else
      let parts' := parts ++ emit r
      if sumLen parts' > max_chars then parts' ++ [TRUNCATION_MARKER]
      else parseLoop max_chars rest parts'

/-- `parse_jsonl_session(session_file, max_chars)` (scripts/collect.py
line 72).  An unreadable source is the `.error` case (the enclosing
`except Exception`); a readable one provides its record lines. -/
def parse_jsonl_session (src : Except String (List Record)) (max_chars : Nat) : String :=
  match src with
  | .error e => "[Error reading session: " ++ e ++ "]"
  | .ok records =>
    let result := strJoin "\n\n" (parseLoop max_chars records [])
    if result = "" then "[No content extracted]" else result

/-! ## Claim-side definitions -/

/-- The top-level heading of a document in the sense of the specification
(section 4.4 speaks of locating "the document's top-level heading"): the
first line starting with `"# "`.  Stated from the spec's words, for
comparison with `extract_title`, which scans every line. -/
def specTopHeading (doc : String) : Option String :=
  (linesOf doc).find? (fun l => strStartsWith l "# ")

/-- `new` extends `old` by appending only: existing content is an unchanged
prefix; an absent file either stays absent or is created starting with the
fixed preamble `pre`. -/
def growsFrom (old new : Option String) (pre : String) : Prop :=
  match old with
  | some c => ∃ s, new = some (c ++ s)
  | none => new = none ∨ ∃ s, new = some (pre ++ s)

/-! ## Helper lemmas: strings and occurrence counting -/

theorem strData_append : ∀ (s t : String), (s ++ t).data = s.data ++ t.data
  | ⟨_⟩, ⟨_⟩ => rfl

theorem strLength_data (s : String) : s.length = s.data.length := rfl

theorem strLength_append (s t : String) : (s ++ t).length = s.length + t.length := by
  rw [strLength_data, strData_append, List.length_append, strLength_data, strLength_data]

theorem str_eq_of_data_eq {s t : String} (h : s.data = t.data) : s = t := by
  cases s
  cases t
  exact congrArg String.mk h

theorem str_ne_empty_of_data_ne {s : String} (h : s.data ≠ []) : s ≠ "" := by
  intro he
  subst he
  exact h rfl

theorem listIsPrefix_append_self (p y : List Char) : listIsPrefix p (p ++ y) = true := by
  induction p with
  | nil => rfl
  | cons a as ih => simp [listIsPrefix, ih]

theorem listIsPrefix_refl (p : List Char) : listIsPrefix p p = true := by
  have h := listIsPrefix_append_self p []
  simpa using h

theorem listIsPrefix_length_le {p l : List Char} (h : listIsPrefix p l = true) :
    p.length ≤ l.length := by
  induction p generalizing l with
  | nil => simp
  | cons a as ih =>
    cases l with
    | nil => simp [listIsPrefix] at h
    | cons b bs =>
      simp only [listIsPrefix, Bool.and_eq_true] at h
      simpa using ih h.2

theorem listIsPrefix_newline_split {pat : List Char} (hnl : '\n' ∉ pat) :
    ∀ (s l₂ : List Char), listIsPrefix pat (s ++ '\n' :: l₂) = listIsPrefix pat s := by
  induction pat with
  | nil => intro s l₂; rfl
  | cons a as ih =>
    intro s l₂
    have ha : a ≠ '\n' := fun h => hnl (h ▸ List.mem_cons_self a as)
    have has : '\n' ∉ as := fun h => hnl (List.mem_cons_of_mem a h)
    cases s with
    | nil =>
      show (a == '\n' && listIsPrefix as l₂) = false
      simp [beq_iff_eq, ha]
    | cons b bs =>
      show (a == b && listIsPrefix as (bs ++ '\n' :: l₂)) = (a == b && listIsPrefix as bs)
      rw [ih has bs l₂]

theorem countPrefAux_short {pat : List Char} :
    ∀ {l : List Char}, l.length < pat.length → countPrefAux pat l = 0 := by
  intro l
  induction l with
  | nil => intro _; rfl
  | cons c r ih =>
    intro h
    have hf : listIsPrefix pat (c :: r) = false := by
      cases hp : listIsPrefix pat (c :: r) with
      | true => exact absurd (listIsPrefix_length_le hp) (by omega)
      | false => rfl
    show (if listIsPrefix pat (c :: r) = true then 1 else 0) + countPrefAux pat r = 0
    rw [hf]
    simp only [Bool.false_eq_true, if_false, Nat.zero_add]
    exact ih (by simp at h ⊢; omega)

theorem countPrefAux_self {pat : List Char} (hp : pat ≠ []) : countPrefAux pat pat = 1 := by
  cases pat with
  | nil => exact absurd rfl hp
  | cons p ps =>
    show (if listIsPrefix (p :: ps) (p :: ps) = true then 1 else 0) + countPrefAux (p :: ps) ps = 1
    rw [listIsPrefix_refl, countPrefAux_short (by simp)]
    simp

theorem countPrefAux_newline_append (pat l₁ l₂ : List Char) (hp : pat ≠ [])
    (hnl : '\n' ∉ pat) :
    countPrefAux pat (l₁ ++ '\n' :: l₂) = countPrefAux pat l₁ + countPrefAux pat l₂ := by
  induction l₁ with
  | nil =>
    show (if listIsPrefix pat ('\n' :: l₂) = true then 1 else 0) + countPrefAux pat l₂
        = countPrefAux pat [] + countPrefAux pat l₂
    have h : listIsPrefix pat ('\n' :: l₂) = false := by
      have h2 : listIsPrefix pat ('\n' :: l₂) = listIsPrefix pat [] :=
        listIsPrefix_newline_split hnl [] l₂
      rw [h2]
      cases pat with
      | nil => exact absurd rfl hp
      | cons a as => rfl
    rw [h]
    simp [countPrefAux]
  | cons c t ih =>
    show (if listIsPrefix pat (c :: (t ++ '\n' :: l₂)) = true then 1 else 0)
          + countPrefAux pat (t ++ '\n' :: l₂)
        = ((if listIsPrefix pat (c :: t) = true then 1 else 0) + countPrefAux pat t)
          + countPrefAux pat l₂
    have h : listIsPrefix pat (c :: (t ++ '\n' :: l₂)) = listIsPrefix pat (c :: t) :=
      listIsPrefix_newline_split hnl (c :: t) l₂
    rw [h, ih]
    omega

theorem countPrefAux_le_append (pat b : List Char) :
    ∀ a : List Char, countPrefAux pat b ≤ countPrefAux pat (a ++ b) := by
  intro a
  induction a with
  | nil => simp
  | cons c t ih =>
    show countPrefAux pat b
        ≤ (if listIsPrefix pat (c :: (t ++ b)) = true then 1 else 0) + countPrefAux pat (t ++ b)
    omega

theorem countPrefAux_pat_append_pos {pat : List Char} (hp : pat ≠ []) (y : List Char) :
    1 ≤ countPrefAux pat (pat ++ y) := by
  cases pat with
  | nil => exact absurd rfl hp
  | cons p ps =>
    show 1 ≤ (if listIsPrefix (p :: ps) (p :: (ps ++ y)) = true then 1 else 0)
          + countPrefAux (p :: ps) (ps ++ y)
    have h : listIsPrefix (p :: ps) (p :: (ps ++ y)) = true := listIsPrefix_append_self (p :: ps) y
    rw [h]
    simp

theorem count_sep_block (pat a b : List Char) (hp : pat ≠ []) (hnl : '\n' ∉ pat) :
    countPrefAux pat (a ++ '\n' :: (pat ++ '\n' :: b))
      = countPrefAux pat a + 1 + countPrefAux pat b := by
  rw [countPrefAux_newline_append pat a (pat ++ '\n' :: b) hp hnl,
      countPrefAux_newline_append pat pat b hp hnl,
      countPrefAux_self hp]
  omega

theorem countPrefAux_append_newline_nil (pat b : List Char) (hp : pat ≠ [])
    (hnl : '\n' ∉ pat) :
    countPrefAux pat (b ++ ['\n']) = countPrefAux pat b := by
  have h := countPrefAux_newline_append pat b [] hp hnl
  simpa using h

theorem strContains_iff (s pat : String) :
    strContains s pat = true ↔ countPrefAux pat.data s.data ≠ 0 := by
  simp [strContains]

/-! ## Helper lemmas: shape of the chronicle block -/

theorem chronicle_heading_ne_nil : CHRONICLE_HEADING.data ≠ [] := by decide

theorem chronicle_heading_no_newline : '\n' ∉ CHRONICLE_HEADING.data := by decide

theorem daily_new_file_data (entry date : String) (config : Config) :
    ("# " ++ date ++ "\n\n*Daily memory log*\n" ++ chronicleContent entry date config).data
      = ("# " ++ date ++ "\n\n*Daily memory log*\n\n").data
          ++ '\n' :: (CHRONICLE_HEADING.data ++ '\n' :: (chronicleTail entry date config).data) := by
  simp only [chronicleContent, strData_append, List.append_assoc]
  rfl

theorem daily_existing_file_data (c entry date : String) (config : Config) :
    (c ++ chronicleContent entry date config).data
      = (c.data ++ ['\n'])
          ++ '\n' :: (CHRONICLE_HEADING.data ++ '\n' :: (chronicleTail entry date config).data) := by
  simp only [chronicleContent, strData_append, List.append_assoc]
  rfl

theorem count_chronicle_new (entry date : String) (config : Config)
    (hpre : countPrefAux CHRONICLE_HEADING.data
        ("# " ++ date ++ "\n\n*Daily memory log*\n\n").data = 0)
    (htail : countPrefAux CHRONICLE_HEADING.data (chronicleTail entry date config).data = 0) :
    countPrefAux CHRONICLE_HEADING.data
        ("# " ++ date ++ "\n\n*Daily memory log*\n" ++ chronicleContent entry date config).data
      = 1 := by
  rw [daily_new_file_data, count_sep_block _ _ _ chronicle_heading_ne_nil chronicle_heading_no_newline,
      hpre, htail]

theorem count_chronicle_existing (c entry date : String) (config : Config)
    (hc : countPrefAux CHRONICLE_HEADING.data c.data = 0)
    (htail : countPrefAux CHRONICLE_HEADING.data (chronicleTail entry date config).data = 0) :
    countPrefAux CHRONICLE_HEADING.data (c ++ chronicleContent entry date config).data = 1 := by
  rw [daily_existing_file_data, count_sep_block _ _ _ chronicle_heading_ne_nil chronicle_heading_no_newline,
      countPrefAux_append_newline_nil _ _ chronicle_heading_ne_nil chronicle_heading_no_newline,
      hc, htail]

/-! ## Claim C1 -/

/-- Claim C1: with memory integration enabled (both flags), starting from a
daily-memory file that contains no chronicle heading, running
`append_to_daily_memory` twice for the same date leaves the file with exactly
one chronicle block: the second run finds the heading already present and
performs no write; and when the file did not exist, the first run creates it
with the minimal header followed by the chronicle block. -/
theorem daily_chronicle_append_idempotent
    (entry date : String) (config : Config) (f₀ : Option String)
    (hen : (miOf config).enabled.getD false = true)
    (hap : (miOf config).append_to_daily.getD false = true)
    (h₀ : ∀ c, f₀ = some c → countPrefAux CHRONICLE_HEADING.data c.data = 0)
    (hpre : countPrefAux CHRONICLE_HEADING.data
        ("# " ++ date ++ "\n\n*Daily memory log*\n\n").data = 0)
    (htail : countPrefAux CHRONICLE_HEADING.data (chronicleTail entry date config).data = 0) :
    append_to_daily_memory entry date config (append_to_daily_memory entry date config f₀).2
        = (false, (append_to_daily_memory entry date config f₀).2)
    ∧ (f₀ = none →
        append_to_daily_memory entry date config f₀
          = (true, some ("# " ++ date ++ "\n\n*Daily memory log*\n"
              ++ chronicleContent entry date config)))
    ∧ (∀ c₁, (append_to_daily_memory entry date config f₀).2 = some c₁ →
        countPrefAux CHRONICLE_HEADING.data c₁.data = 1) := by
  have hfirst : ∃ c₁, append_to_daily_memory entry date config f₀ = (true, some c₁)
      ∧ countPrefAux CHRONICLE_HEADING.data c₁.data = 1 := by
    cases f₀ with
    | none =>
      refine ⟨"# " ++ date ++ "\n\n*Daily memory log*\n" ++ chronicleContent entry date config,
        ?_, count_chronicle_new entry date config hpre htail⟩
      simp [append_to_daily_memory, hen, hap, chronicleContent]
    | some c =>
      have hc := h₀ c rfl
      have hnc : strContains c CHRONICLE_HEADING = false := by
        cases hx : strContains c CHRONICLE_HEADING with
        | false => rfl
        | true => exact absurd ((strContains_iff _ _).mp hx) (by omega)
      refine ⟨c ++ chronicleContent entry date config, ?_,
        count_chronicle_existing c entry date config hc htail⟩
      simp [append_to_daily_memory, hen, hap, hnc, chronicleContent]
  obtain ⟨c₁, hr₁, hcount₁⟩ := hfirst
  have hcontains : strContains c₁ CHRONICLE_HEADING = true :=
    (strContains_iff _ _).mpr (by omega)
  refine ⟨?_, ?_, ?_⟩
  · rw [hr₁]
    show append_to_daily_memory entry date config (some c₁) = (false, some c₁)
    simp [append_to_daily_memory, hen, hap, hcontains]
  · intro h0
    subst h0
    simp [append_to_daily_memory, hen, hap, chronicleContent]
  · intro c₂ hc₂
    rw [hr₁] at hc₂
    have : c₁ = c₂ := by simpa using hc₂
    exact this ▸ hcount₁

/-- Witness for claim C1 at a concrete entry, date and configuration. -/
theorem daily_chronicle_append_idempotent_witness :
    append_to_daily_memory "Hello." "2024-05-01" ⟨none, some ⟨some true, some true, none⟩⟩
        (append_to_daily_memory "Hello." "2024-05-01"
          ⟨none, some ⟨some true, some true, none⟩⟩ none).2
      = (false, (append_to_daily_memory "Hello." "2024-05-01"
          ⟨none, some ⟨some true, some true, none⟩⟩ none).2) :=
  (daily_chronicle_append_idempotent "Hello." "2024-05-01"
    ⟨none, some ⟨some true, some true, none⟩⟩ none (by decide) (by decide)
    (fun c hc => by simp at hc) (by decide) (by decide)).1

/-! ## Claim C9 -/

/-- Claim C9: when the configuration's `memory_integration` mapping does not
have `enabled` set to true, or does not have `append_to_daily` set to true
(including when the mapping is absent, in which case both default to false),
`append_to_daily_memory` returns `False` and leaves the daily-memory file
untouched, whatever the entry. -/
theorem memory_integration_disabled_no_write
    (entry date : String) (config : Config) (f : Option String)
    (h : (miOf config).enabled.getD false = false
       ∨ (miOf config).append_to_daily.getD false = false) :
    append_to_daily_memory entry date config f = (false, f) := by
  rcases h with h | h
  · simp [append_to_daily_memory, h]
  · cases he : (miOf config).enabled.getD false with
    | false => simp [append_to_daily_memory, he]
    | true => simp [append_to_daily_memory, he, h]

/-- Witness for claim C9: absent `memory_integration` mapping, nothing is
written. -/
theorem memory_integration_disabled_no_write_witness :
    append_to_daily_memory "some entry" "2024-01-02" ⟨none, none⟩ (some "memory")
      = (false, some "memory") :=
  memory_integration_disabled_no_write "some entry" "2024-01-02" ⟨none, none⟩
    (some "memory") (Or.inl (by decide))

/-! ## Helper lemmas: shape of the knowledge subsection block -/

theorem hashdate_data (date : String) :
    ("### " ++ date).data = '#' :: '#' :: '#' :: ' ' :: date.data := by
  simp only [strData_append]
  rfl

theorem hashdate_ne_nil (date : String) : ("### " ++ date).data ≠ [] := by
  rw [hashdate_data]
  simp

theorem hashdate_no_newline {date : String} (hnl : '\n' ∉ date.data) :
    '\n' ∉ ("### " ++ date).data := by
  rw [hashdate_data]
  simp only [List.mem_cons]
  rintro (h | h | h | h | h)
  · exact absurd h (by decide)
  · exact absurd h (by decide)
  · exact absurd h (by decide)
  · exact absurd h (by decide)
  · exact hnl h

theorem knowledge_block_data (base date body : String) :
    (base ++ ("\n### " ++ date ++ "\n" ++ body ++ "\n")).data
      = base.data ++ '\n' :: (("### " ++ date).data ++ '\n' :: (body.data ++ ['\n'])) := by
  simp only [strData_append, List.append_assoc]
  rfl

theorem block_data_cons (date body : String) :
    ("\n### " ++ date ++ "\n" ++ body ++ "\n").data
      = '\n' :: '#' :: '#' :: '#' :: ' ' :: (date.data ++ '\n' :: (body.data ++ ['\n'])) := by
  simp only [strData_append, List.append_assoc]
  rfl

theorem count_knowledge_append (base date body : String) (hnl : '\n' ∉ date.data)
    (hbody : countPrefAux ("### " ++ date).data body.data = 0) :
    countPrefAux ("### " ++ date).data
        (base ++ ("\n### " ++ date ++ "\n" ++ body ++ "\n")).data
      = countPrefAux ("### " ++ date).data base.data + 1 := by
  rw [knowledge_block_data,
      count_sep_block _ _ _ (hashdate_ne_nil date) (hashdate_no_newline hnl),
      countPrefAux_append_newline_nil _ _ (hashdate_ne_nil date) (hashdate_no_newline hnl),
      hbody]

theorem strAppend_empty (s : String) : s ++ "" = s :=
  str_eq_of_data_eq (by rw [strData_append]; simp)

theorem update_field (cat : KCat) (entry date : String) (fs : KnowledgeFiles) :
    catFile cat (update_persistent_files entry date fs).1
      = (knowledgeStep cat entry date (catFile cat fs)).1 := by
  cases cat <;> simp [update_persistent_files, catFile]

/-! ## Claim C2 -/

/-- Claim C2: when a knowledge category's extracted section body is
non-trivial (longer than the 10-character threshold), one run of
`update_persistent_files` for a date not yet present in the file appends
exactly one dated subsection (a level-3 heading with the date, then the
body), and a second run for the same date and entry appends a second copy:
the operation is not idempotent at the file level. -/
theorem knowledge_append_not_idempotent
    (cat : KCat) (entry date : String) (fs : KnowledgeFiles) (body : String)
    (hb : sectionBody (catHeading cat) entry = some body)
    (hlen : body.length > 10)
    (hnl : '\n' ∉ date.data)
    (hbase : countPrefAux ("### " ++ date).data
        ((catFile cat fs).getD (catPreamble cat)).data = 0)
    (hbody : countPrefAux ("### " ++ date).data body.data = 0) :
    catFile cat (update_persistent_files entry date fs).1
        = some ((catFile cat fs).getD (catPreamble cat)
            ++ ("\n### " ++ date ++ "\n" ++ body ++ "\n"))
    ∧ catFile cat (update_persistent_files entry date
          (update_persistent_files entry date fs).1).1
        = some (((catFile cat fs).getD (catPreamble cat)
              ++ ("\n### " ++ date ++ "\n" ++ body ++ "\n"))
            ++ ("\n### " ++ date ++ "\n" ++ body ++ "\n"))
    ∧ countPrefAux ("### " ++ date).data
        (((catFile cat fs).getD (catPreamble cat)
            ++ ("\n### " ++ date ++ "\n" ++ body ++ "\n"))).data = 1
    ∧ countPrefAux ("### " ++ date).data
        ((((catFile cat fs).getD (catPreamble cat)
              ++ ("\n### " ++ date ++ "\n" ++ body ++ "\n"))
            ++ ("\n### " ++ date ++ "\n" ++ body ++ "\n"))).data = 2
    ∧ (((catFile cat fs).getD (catPreamble cat)
            ++ ("\n### " ++ date ++ "\n" ++ body ++ "\n"))
          ++ ("\n### " ++ date ++ "\n" ++ body ++ "\n"))
        ≠ ((catFile cat fs).getD (catPreamble cat)
            ++ ("\n### " ++ date ++ "\n" ++ body ++ "\n")) := by
  have hbne : body ≠ "" := by
    refine str_ne_empty_of_data_ne ?_
    intro hdata
    rw [strLength_data, hdata] at hlen
    simp at hlen
  have hcond : (body != "" && body.length > 10) = true := by
    simp [hbne, hlen]
  have hstep : ∀ file : Option String,
      knowledgeStep cat entry date file
        = (some (file.getD (catPreamble cat) ++ ("\n### " ++ date ++ "\n" ++ body ++ "\n")),
           [catUpdateMsg cat]) := by
    intro file
    simp [knowledgeStep, hb, hcond]
  have h1 : catFile cat (update_persistent_files entry date fs).1
      = some ((catFile cat fs).getD (catPreamble cat)
          ++ ("\n### " ++ date ++ "\n" ++ body ++ "\n")) := by
    rw [update_field, hstep]
  have h2 : catFile cat (update_persistent_files entry date
        (update_persistent_files entry date fs).1).1
      = some (((catFile cat fs).getD (catPreamble cat)
            ++ ("\n### " ++ date ++ "\n" ++ body ++ "\n"))
          ++ ("\n### " ++ date ++ "\n" ++ body ++ "\n")) := by
    rw [update_field, h1, hstep]
    rfl
  have hc1 : countPrefAux ("### " ++ date).data
      (((catFile cat fs).getD (catPreamble cat)
          ++ ("\n### " ++ date ++ "\n" ++ body ++ "\n"))).data = 1 := by
    rw [count_knowledge_append _ _ _ hnl hbody, hbase]
  have hc2 : countPrefAux ("### " ++ date).data
      ((((catFile cat fs).getD (catPreamble cat)
            ++ ("\n### " ++ date ++ "\n" ++ body ++ "\n"))
          ++ ("\n### " ++ date ++ "\n" ++ body ++ "\n"))).data = 2 := by
    rw [count_knowledge_append _ _ _ hnl hbody, hc1]
  refine ⟨h1, h2, hc1, hc2, ?_⟩
  intro heq
  have hlen2 := congrArg String.length heq
  rw [strLength_append] at hlen2
  have hbl : 0 < ("\n### " ++ date ++ "\n" ++ body ++ "\n").length := by
    rw [strLength_data, block_data_cons]
    simp
  omega

/-- Witness for claim C2 at a concrete quotes entry. -/
theorem knowledge_append_not_idempotent_witness :
    catFile KCat.quotes (update_persistent_files
        "## Quote of the Day 💬\nNice one, very memorable\n" "2024-05-01"
        ⟨none, none, none, none⟩).1
      = some ((catFile KCat.quotes ⟨none, none, none, none⟩).getD (catPreamble KCat.quotes)
          ++ ("\n### " ++ "2024-05-01" ++ "\n" ++ "Nice one, very memorable" ++ "\n")) :=
  (knowledge_append_not_idempotent KCat.quotes
    "## Quote of the Day 💬\nNice one, very memorable\n" "2024-05-01"
    ⟨none, none, none, none⟩ "Nice one, very memorable"
    (by decide) (by decide) (by decide) (by decide) (by decide)).1

/-! ## Claim C3 -/

/-- Every category step only appends: existing content is preserved as a
prefix, an absent file is created starting with the category preamble. -/
theorem knowledgeStep_grows (cat : KCat) (entry date : String) (file : Option String) :
    growsFrom file (knowledgeStep cat entry date file).1 (catPreamble cat) := by
  unfold knowledgeStep
  cases hs : sectionBody (catHeading cat) entry with
  | none =>
    cases file with
    | none => exact Or.inl rfl
    | some c => exact ⟨"", by rw [strAppend_empty]⟩
  | some body =>
    show growsFrom file
      (if body != "" && body.length > 10 then
        (some (file.getD (catPreamble cat) ++ ("\n### " ++ date ++ "\n" ++ body ++ "\n")),
         [catUpdateMsg cat])
      else (file, [])).1
      (catPreamble cat)
    by_cases hcond : (body != "" && body.length > 10) = true
    · rw [if_pos hcond]
      cases file with
      | none => exact Or.inr ⟨"\n### " ++ date ++ "\n" ++ body ++ "\n", rfl⟩
      | some c => exact ⟨"\n### " ++ date ++ "\n" ++ body ++ "\n", rfl⟩
    · rw [if_neg hcond]
      cases file with
      | none => exact Or.inl rfl
      | some c => exact ⟨"", by rw [strAppend_empty]⟩

/-- Claim C3: `update_persistent_files` is append-only on each of the four
knowledge files: prior content is an unchanged prefix of the new content, and
an absent file is only ever created starting with its fixed preamble. -/
theorem knowledge_files_append_only (entry date : String) (fs : KnowledgeFiles) :
    growsFrom fs.quotes (update_persistent_files entry date fs).1.quotes
      (catPreamble KCat.quotes)
    ∧ growsFrom fs.curiosity (update_persistent_files entry date fs).1.curiosity
      (catPreamble KCat.curiosity)
    ∧ growsFrom fs.decisions (update_persistent_files entry date fs).1.decisions
      (catPreamble KCat.decisions)
    ∧ growsFrom fs.relationship (update_persistent_files entry date fs).1.relationship
      (catPreamble KCat.relationship) := by
  refine ⟨?_, ?_, ?_, ?_⟩
  · have h := knowledgeStep_grows KCat.quotes entry date fs.quotes
    rwa [show (update_persistent_files entry date fs).1.quotes
        = (knowledgeStep KCat.quotes entry date fs.quotes).1
      from update_field KCat.quotes entry date fs]
  · have h := knowledgeStep_grows KCat.curiosity entry date fs.curiosity
    rwa [show (update_persistent_files entry date fs).1.curiosity
        = (knowledgeStep KCat.curiosity entry date fs.curiosity).1
      from update_field KCat.curiosity entry date fs]
  · have h := knowledgeStep_grows KCat.decisions entry date fs.decisions
    rwa [show (update_persistent_files entry date fs).1.decisions
        = (knowledgeStep KCat.decisions entry date fs.decisions).1
      from update_field KCat.decisions entry date fs]
  · have h := knowledgeStep_grows KCat.relationship entry date fs.relationship
    rwa [show (update_persistent_files entry date fs).1.relationship
        = (knowledgeStep KCat.relationship entry date fs.relationship).1
      from update_field KCat.relationship entry date fs]

/-! ## Claim C5 -/

/-- Claim C5 counterexample: the claim says extraction yields no result
whenever the document's top heading does not match the date-dash-title shape.
Here the top heading `"# My Day"` does not match, yet `extract_title` finds
the later matching line: the regex search is multiline over every line, not
restricted to the top heading. -/
theorem extract_title_top_heading_counterexample :
    specTopHeading "# My Day\n# 2024-05-01 — Launch Day" = some "# My Day"
    ∧ titleLineMatch "# My Day" = none
    ∧ extract_title "# My Day\n# 2024-05-01 — Launch Day" = some "Launch Day" := by
  decide

/-- Claim C5 (amended): title extraction on `"# 2024-05-01 — Launch Day"`
returns `"Launch Day"`, and it yields no result (`none`, never an exception)
exactly when no line of the document matches the date-dash-title shape; the
match is not restricted to the top heading. -/
theorem extract_title_scans_all_lines :
    extract_title "# 2024-05-01 — Launch Day" = some "Launch Day"
    ∧ ∀ doc : String, extract_title doc = none ↔ ∀ l ∈ linesOf doc, titleLineMatch l = none := by
  constructor
  · decide
  · intro doc
    simp [extract_title, List.findSome?_eq_none_iff]

/-- Witness for claim C5's amended theorem at a concrete document. -/
theorem extract_title_scans_all_lines_witness :
    extract_title "no heading here" = none :=
  (extract_title_scans_all_lines.2 "no heading here").mpr (by decide)

/-! ## Claim C6 -/

theorem scanWindow_some : ∀ (n : Nat) (ls : List String) (v : String),
    scanWindow n ls = some v →
    ∃ l ∈ ls, v = trimStr l ∧ trimStr l ≠ "" ∧ strStartsWith l "#" = false := by
  intro n
  induction n with
  | zero => intro ls v h; simp [scanWindow] at h
  | succ n ih =>
    intro ls v h
    cases ls with
    | nil => simp [scanWindow] at h
    | cons l r =>
      by_cases hc : (trimStr l != "" && !(strStartsWith l "#")) = true
      · rw [scanWindow, if_pos hc] at h
        simp only [Bool.and_eq_true, bne_iff_ne, Bool.not_eq_eq_eq_not, Bool.not_true] at hc
        exact ⟨l, List.mem_cons_self l r, by simpa using h.symm, hc.1, hc.2⟩
      · rw [scanWindow, if_neg hc] at h
        obtain ⟨l', hmem, hrest⟩ := ih r v h
        exact ⟨l', List.mem_cons_of_mem l hmem, hrest⟩

theorem fallbackScan_some : ∀ (ls : List String) (v : String),
    fallbackScan ls = some v →
    ∃ l ∈ ls, v = trimStr l ∧ trimStr l ≠ "" ∧ strStartsWith l "#" = false := by
  intro ls
  induction ls with
  | nil => intro v h; simp [fallbackScan] at h
  | cons l rest ih =>
    intro v h
    by_cases hc : (strStartsWith l "# " && !rest.isEmpty) = true
    · rw [fallbackScan, if_pos hc] at h
      cases hw : scanWindow 4 rest with
      | some w =>
        rw [hw] at h
        obtain ⟨l', hmem, hrest⟩ := scanWindow_some 4 rest w hw
        have hv : v = w := by simpa using h.symm
        exact ⟨l', List.mem_cons_of_mem l hmem, hv ▸ hrest⟩
      | none =>
        rw [hw] at h
        obtain ⟨l', hmem, hrest⟩ := ih v h
        exact ⟨l', List.mem_cons_of_mem l hmem, hrest⟩
    · rw [fallbackScan, if_neg hc] at h
      obtain ⟨l', hmem, hrest⟩ := ih v h
      exact ⟨l', List.mem_cons_of_mem l hmem, hrest⟩

/-- Claim C6: when the `## Summary` heading is absent (the section regex does
not match), `extract_summary` never returns the empty string: it returns
either the fixed `"Diary entry generated."` indicator or the stripped text of
an actual non-heading, nonblank line of the document (the first-paragraph
fallback), so a missing section is never reported as an empty body. -/
theorem extract_summary_missing_heading (entry : String)
    (h : sectionBody "## Summary\n" entry = none) :
    extract_summary entry ≠ ""
    ∧ (extract_summary entry = "Diary entry generated."
       ∨ ∃ l ∈ linesOf entry, extract_summary entry = trimStr l
            ∧ trimStr l ≠ "" ∧ strStartsWith l "#" = false) := by
  have hred : extract_summary entry
      = match fallbackScan (linesOf entry) with
        | some v => v
        | none => "Diary entry generated." := by
    unfold extract_summary
    rw [h]
  cases hf : fallbackScan (linesOf entry) with
  | none =>
    rw [hf] at hred
    constructor
    · rw [hred]; decide
    · exact Or.inl hred
  | some v =>
    rw [hf] at hred
    obtain ⟨l, hmem, hv, hne, hsw⟩ := fallbackScan_some (linesOf entry) v hf
    constructor
    · rw [hred, hv]; exact hne
    · exact Or.inr ⟨l, hmem, by rw [hred, hv], hne, hsw⟩

/-- Witness for claim C6 at a concrete document with no Summary heading. -/
theorem extract_summary_missing_heading_witness :
    extract_summary "# T\nHello" ≠ "" :=
  (extract_summary_missing_heading "# T\nHello" (by decide)).1

/-! ## Helper lemmas: the parser loop -/

theorem emit_of_skips {r : Record} (h : skipsParse r = true) : emit r = [] := by
  cases r <;> first | rfl | simp [skipsParse] at h

theorem parseLoop_spec (max_chars : Nat) :
    ∀ (records : List Record) (parts : List String), sumLen parts ≤ max_chars →
    (parseLoop max_chars records parts = parts ++ emitAll records
       ∧ sumLen (parts ++ emitAll records) ≤ max_chars)
    ∨ ∃ pre r post, records = pre ++ r :: post ∧
        sumLen (parts ++ emitAll pre) ≤ max_chars ∧
        max_chars < sumLen ((parts ++ emitAll pre) ++ emit r) ∧
        parseLoop max_chars records parts
          = ((parts ++ emitAll pre) ++ emit r) ++ [TRUNCATION_MARKER] := by
  intro records
  induction records with
  | nil =>
    intro parts h
    left
    constructor
    · simp [parseLoop, emitAll]
    · simpa [emitAll] using h
  | cons r rest ih =>
    intro parts h
    by_cases hs : skipsParse r = true
    · have he : emit r = [] := emit_of_skips hs
      have hloop : parseLoop max_chars (r :: rest) parts = parseLoop max_chars rest parts := by
        simp [parseLoop, hs]
      rcases ih parts h with ⟨h1, h2⟩ | ⟨pre, r', post, hrec, h1, h2, h3⟩
      · left
        constructor
        · rw [hloop, h1]; simp [emitAll, he]
        · simpa [emitAll, he] using h2
      · right
        refine ⟨r :: pre, r', post, by simp [hrec], ?_, ?_, ?_⟩
        · simpa [emitAll, he] using h1
        · simpa [emitAll, he] using h2
        · rw [hloop, h3]; simp [emitAll, he]
    · have hs' : skipsParse r = false := by simpa using hs
      by_cases hb : sumLen (parts ++ emit r) > max_chars
      · right
        refine ⟨[], r, rest, rfl, ?_, ?_, ?_⟩
        · simpa [emitAll] using h
        · simpa [emitAll] using hb
        · simp [parseLoop, hs', hb, emitAll]
      · have hb' : sumLen (parts ++ emit r) ≤ max_chars := by omega
        have hloop : parseLoop max_chars (r :: rest) parts
            = parseLoop max_chars rest (parts ++ emit r) := by
          simp [parseLoop, hs', hb]
        rcases ih (parts ++ emit r) hb' with ⟨h1, h2⟩ | ⟨pre, r', post, hrec, h1, h2, h3⟩
        · left
          constructor
          · rw [hloop, h1]; simp [emitAll]
          · simpa [emitAll] using h2
        · right
          refine ⟨r :: pre, r', post, by simp [hrec], ?_, ?_, ?_⟩
          · simpa [emitAll] using h1
          · simpa [emitAll] using h2
          · rw [hloop, h3]; simp [emitAll]

theorem parseLoop_insert_skip (max_chars : Nat) (r : Record) (hr : skipsParse r = true) :
    ∀ (l₁ l₂ : List Record) (parts : List String),
      parseLoop max_chars (l₁ ++ r :: l₂) parts = parseLoop max_chars (l₁ ++ l₂) parts := by
  intro l₁
  induction l₁ with
  | nil =>
    intro l₂ parts
    simp [parseLoop, hr]
  | cons a t ih =>
    intro l₂ parts
    show parseLoop max_chars (a :: (t ++ r :: l₂)) parts
        = parseLoop max_chars (a :: (t ++ l₂)) parts
    by_cases ha : skipsParse a = true
    · simp only [parseLoop, ha, if_true]
      exact ih l₂ parts
    · have ha' : skipsParse a = false := by simpa using ha
      by_cases hb : sumLen (parts ++ emit a) > max_chars
      · simp [parseLoop, ha', hb]
      · simp only [parseLoop, ha', Bool.false_eq_true, if_false, hb]
        exact ih l₂ (parts ++ emit a)

theorem parseLoop_insert_silent (max_chars : Nat) (r : Record)
    (hr : skipsParse r = false) (he : emit r = []) :
    ∀ (l₁ l₂ : List Record) (parts : List String), sumLen parts ≤ max_chars →
      parseLoop max_chars (l₁ ++ r :: l₂) parts = parseLoop max_chars (l₁ ++ l₂) parts := by
  intro l₁
  induction l₁ with
  | nil =>
    intro l₂ parts h
    show parseLoop max_chars (r :: l₂) parts = parseLoop max_chars l₂ parts
    have hb : ¬ max_chars < sumLen parts := by omega
    simp [parseLoop, hr, he, hb]
  | cons a t ih =>
    intro l₂ parts h
    show parseLoop max_chars (a :: (t ++ r :: l₂)) parts
        = parseLoop max_chars (a :: (t ++ l₂)) parts
    by_cases ha : skipsParse a = true
    · simp only [parseLoop, ha, if_true]
      exact ih l₂ parts h
    · have ha' : skipsParse a = false := by simpa using ha
      by_cases hb : sumLen (parts ++ emit a) > max_chars
      · simp [parseLoop, ha', hb]
      · have hb' : sumLen (parts ++ emit a) ≤ max_chars := by omega
        simp only [parseLoop, ha', Bool.false_eq_true, if_false, hb]
        exact ih l₂ (parts ++ emit a) hb'

/-! ## Claim C4 -/

set_option maxRecDepth 40000 in
/-- Claim C4 counterexample: with a budget of 100 and a transcript whose
records render to exactly 500 characters, the parser's result is NOT at most
100 characters plus the trailing truncation marker: the record that crosses
the budget is emitted whole, so the pre-marker output already exceeds the
budget (here by 400 characters, plus the two-character join separator). -/
theorem record_parser_budget_counterexample :
    sumLen (emitAll [Record.tool_error (String.mk (List.replicate 486 'a'))]) = 500
    ∧ 100 + TRUNCATION_MARKER.length
        < (parse_jsonl_session
            (Except.ok [Record.tool_error (String.mk (List.replicate 486 'a'))]) 100).length := by
  constructor
  · decide
  · decide

/-- Claim C4 (amended): the parser keeps a running total of emitted
characters, re-checked after every parsed line; either the whole transcript
fits the budget and is emitted in full, or there is a first record whose
emission pushes the total over the budget, and the loop stops right there,
emitting every record up to and including that one (no record is split) plus
a single trailing truncation marker.  The output before the crossing record
is within budget, but the crossing record's full emission may exceed it. -/
theorem record_parser_budget (max_chars : Nat) (records : List Record) :
    (parseLoop max_chars records [] = emitAll records
       ∧ sumLen (emitAll records) ≤ max_chars)
    ∨ ∃ pre r post, records = pre ++ r :: post ∧
        sumLen (emitAll pre) ≤ max_chars ∧
        max_chars < sumLen (emitAll pre ++ emit r) ∧
        parseLoop max_chars records []
          = (emitAll pre ++ emit r) ++ [TRUNCATION_MARKER] := by
  rcases parseLoop_spec max_chars records [] (by simp [sumLen]) with
    ⟨h1, h2⟩ | ⟨pre, r, post, hrec, h1, h2, h3⟩
  · left
    exact ⟨by simpa using h1, by simpa using h2⟩
  · right
    exact ⟨pre, r, post, hrec, by simpa using h1, by simpa using h2, by simpa using h3⟩

/-! ## Claim C7 -/

/-- Claim C7: a malformed transcript line (one that fails to parse) is
skipped: the parse of any transcript containing it equals the parse of the
same transcript with that line removed, wherever it sits; the failure never
aborts or escapes the parse. -/
theorem malformed_line_skipped (max_chars : Nat) (l₁ l₂ : List Record) :
    parse_jsonl_session (Except.ok (l₁ ++ Record.malformed :: l₂)) max_chars
      = parse_jsonl_session (Except.ok (l₁ ++ l₂)) max_chars := by
  simp only [parse_jsonl_session]
  rw [parseLoop_insert_skip max_chars Record.malformed rfl l₁ l₂ []]

/-! ## Claim C8 -/

/-- Claim C8: the parser never raises past its boundary (modelled by its
total `Except` interface) and never returns the empty string: a readable
input from which no lines were emitted yields the sentinel
`"[No content extracted]"`, an unreadable source yields the descriptive
`"[Error reading session: ...]"` line, and the two are distinct. -/
theorem parse_session_error_sentinel :
    (∀ (e : String) (max_chars : Nat),
        parse_jsonl_session (Except.error e) max_chars
            = "[Error reading session: " ++ e ++ "]"
        ∧ parse_jsonl_session (Except.error e) max_chars ≠ "[No content extracted]")
    ∧ (∀ (records : List Record) (max_chars : Nat),
        parseLoop max_chars records [] = [] →
        parse_jsonl_session (Except.ok records) max_chars = "[No content extracted]")
    ∧ (∀ (src : Except String (List Record)) (max_chars : Nat),
        parse_jsonl_session src max_chars ≠ "") := by
  refine ⟨?_, ?_, ?_⟩
  · intro e max_chars
    refine ⟨rfl, ?_⟩
    intro heq
    have heq' : "[Error reading session: " ++ e ++ "]" = "[No content extracted]" := heq
    have hlen := congrArg String.length heq'
    rw [strLength_append, strLength_append] at hlen
    have h1 : ("[Error reading session: " : String).length = 24 := by decide
    have h2 : ("]" : String).length = 1 := by decide
    have h3 : ("[No content extracted]" : String).length = 22 := by decide
    omega
  · intro records max_chars h
    simp only [parse_jsonl_session, h]
    rfl
  · intro src max_chars
    cases src with
    | error e =>
      intro heq
      have heq' : "[Error reading session: " ++ e ++ "]" = "" := heq
      have hlen := congrArg String.length heq'
      rw [strLength_append, strLength_append] at hlen
      have h1 : ("[Error reading session: " : String).length = 24 := by decide
      have h0 : ("" : String).length = 0 := rfl
      omega
    | ok records =>
      simp only [parse_jsonl_session]
      by_cases hres : strJoin "\n\n" (parseLoop max_chars records []) = ""
      · rw [if_pos hres]
        decide
      · rw [if_neg hres]
        exact hres

/-- Witness for claim C8: a transcript of one blank line yields the sentinel,
and an unreadable source yields a nonempty error line. -/
theorem parse_session_error_sentinel_witness :
    parse_jsonl_session (Except.ok [Record.blank]) 7 = "[No content extracted]"
    ∧ parse_jsonl_session (Except.error "boom") 7 ≠ "" :=
  ⟨parse_session_error_sentinel.2.1 [Record.blank] 7 (by decide),
   parse_session_error_sentinel.2.2 (Except.error "boom") 7⟩

/-! ## Claim C10 -/

/-- Claim C10: a `tool_result` record with empty text and a `tool_error`
record with an empty message contribute no output line at all (the parse of
any transcript containing one equals the parse without it), while a
`tool_result` with non-empty text contributes exactly one line whose text is
cut to the fixed 500-character preview, independent of the overall budget. -/
theorem tool_records_empty_suppressed :
    (∀ (max_chars : Nat) (l₁ l₂ : List Record),
        parse_jsonl_session (Except.ok (l₁ ++ Record.tool_result "" :: l₂)) max_chars
          = parse_jsonl_session (Except.ok (l₁ ++ l₂)) max_chars)
    ∧ (∀ (max_chars : Nat) (l₁ l₂ : List Record),
        parse_jsonl_session (Except.ok (l₁ ++ Record.tool_error "" :: l₂)) max_chars
          = parse_jsonl_session (Except.ok (l₁ ++ l₂)) max_chars)
    ∧ (∀ s : String, s ≠ "" →
        emit (Record.tool_result s) = ["[Tool Result]: " ++ strTake s 500]) := by
  refine ⟨?_, ?_, ?_⟩
  · intro max_chars l₁ l₂
    simp only [parse_jsonl_session]
    rw [parseLoop_insert_silent max_chars (Record.tool_result "") rfl (by simp [emit])
        l₁ l₂ [] (by simp [sumLen])]
  · intro max_chars l₁ l₂
    simp only [parse_jsonl_session]
    rw [parseLoop_insert_silent max_chars (Record.tool_error "") rfl (by simp [emit])
        l₁ l₂ [] (by simp [sumLen])]
  · intro s hs
    simp [emit, hs]

/-- Witness for claim C10 at a concrete non-empty tool result. -/
theorem tool_records_empty_suppressed_witness :
    emit (Record.tool_result "hello") = ["[Tool Result]: " ++ strTake "hello" 500] :=
  tool_records_empty_suppressed.2.2 "hello" (by decide)
